import Mathlib

/-!
# Verification of the PDF title/outline inference engine

Shallow embedding of `src/pdf_parser.py` (class `PDFTitleHeaderParser`).

Modelling conventions:
* A text fragment (`Frag`) carries the four fields the engine reads:
  `text`, `page`, `font_size`, `bold`.  Font sizes are one-decimal numbers
  in the source (Python floats produced by `round(x, 1)`); the engine only
  ever compares them for equality and order, so they are modelled exactly
  as rationals.
* Python strings are Lean `String`s; the per-character operations
  (`strip`, `lower`, `split`, regex matches) are hand-translated below.
  `str.lower` is modelled on the ASCII and Latin-1 ranges, which covers
  every character occurring in the source's pattern tables.
* Each regular expression of the source is translated into an equivalent
  decidable predicate; the translation notes the source pattern.
* The one place the source can raise (`candidates.sort(reverse=True)` in
  `identify_title` compares the raw element dicts when the first three
  tuple components tie) is modelled by an explicit crash predicate and an
  `Except` result.
-/

/-- Python `str.isspace` characters relevant to `\s` / `strip()` (ASCII). -/
def isPySpace (c : Char) : Bool :=
  c = ' ' || c = '\t' || c = '\n' || c = '\x0d' || c = '\x0b' || c = '\x0c'

/-- ASCII digit test, Python `\d` for the ASCII inputs the engine sees. -/
def isPyDigit (c : Char) : Bool :=
  '0' ≤ c && c ≤ '9'

/-- Python `\w` (word character) on the ASCII range: letters, digits, `_`. -/
def isPyWord (c : Char) : Bool :=
  ('a' ≤ c && c ≤ 'z') || ('A' ≤ c && c ≤ 'Z') || isPyDigit c || c = '_'

/-- Python `str.lower` per character, on the ASCII and Latin-1 ranges
(`U+00C0`–`U+00DE` except `U+00D7` lower by `+0x20`, like ASCII). -/
def pyLowerChar (c : Char) : Char :=
  if 'A' ≤ c && c ≤ 'Z' then Char.ofNat (c.toNat + 32)
  else if 0xC0 ≤ c.toNat && c.toNat ≤ 0xDE && c.toNat ≠ 0xD7 then
    Char.ofNat (c.toNat + 32)
  else c

def lowerChars (l : List Char) : List Char := l.map pyLowerChar

/-- Python `str.strip()` on a char list. -/
def stripChars (l : List Char) : List Char :=
  ((l.dropWhile isPySpace).reverse.dropWhile isPySpace).reverse

def pyStrip (s : String) : String := ⟨stripChars s.data⟩

def pyLower (s : String) : String := ⟨lowerChars s.data⟩

/-- Python `str.split()` (split on whitespace runs, dropping empties);
the accumulator holds the current word, reversed. -/
def splitWSAux : List Char → List Char → List (List Char)
  | [], acc => if acc.isEmpty then [] else [acc.reverse]
  | c :: rest, acc =>
    if isPySpace c then
      if acc.isEmpty then splitWSAux rest [] else acc.reverse :: splitWSAux rest []
    else splitWSAux rest (c :: acc)

def splitWS (l : List Char) : List (List Char) := splitWSAux l []

/-- Number of words of `str.split()`. -/
def wordCount (s : String) : Nat := (splitWS s.data).length

/-- `re.sub(r'\s+', ' ', s)`: collapse whitespace runs to single spaces.
The Bool flag records whether the previous char was whitespace. -/
def collapseWSAux : Bool → List Char → List Char
  | _, [] => []
  | prevWS, c :: rest =>
    if isPySpace c then
      if prevWS then collapseWSAux true rest else ' ' :: collapseWSAux true rest
    else c :: collapseWSAux false rest

/-- Substring test: does `p` occur contiguously inside `l`?  Models a
`re.search` of a literal pattern. -/
def subAux (p : List Char) : List Char → Bool
  | [] => p.isPrefixOf []
  | c :: rest => p.isPrefixOf (c :: rest) || subAux p rest

def containsSub (pat s : String) : Bool := subAux pat.data s.data

/-- Search combinator: `re.search` succeeds iff the anchored matcher `f`
succeeds at some suffix of the subject. -/
def searchAux (f : List Char → Bool) : List Char → Bool
  | [] => f []
  | c :: rest => f (c :: rest) || searchAux f rest

/-- Greedy span of ASCII digits (`\d+` followed by a non-digit or end). -/
def spanDigits (l : List Char) : List Char × List Char :=
  (l.takeWhile isPyDigit, l.dropWhile isPyDigit)

/-- Greedy span of whitespace (`\s+`/`\s*`). -/
def spanWS (l : List Char) : List Char × List Char :=
  (l.takeWhile isPySpace, l.dropWhile isPySpace)

/-- One text fragment as consumed by the engine (`element.get(...)` with
the four keys `text`, `page`, `font_size`, `bold`). -/
structure Frag where
  text : String
  page : Nat
  font_size : Rat
  bold : Bool
deriving DecidableEq, Repr

/-! ## Pattern tables (§4.1 / §4.2 predicates of the source) -/

/-- `^(version|date|remarks|identifier|reference|days|syllabus)$` on the
stripped lowercased text (exact word). -/
def tableWordMatch (t : List Char) : Bool :=
  t = "version".data || t = "date".data || t = "remarks".data ||
  t = "identifier".data || t = "reference".data || t = "days".data ||
  t = "syllabus".data

/-- `^\d+\.\d+$`. -/
def numPairMatch (t : List Char) : Bool :=
  let (d1, r1) := spanDigits t
  !d1.isEmpty &&
    (match r1 with
     | '.' :: r2 =>
       let (d2, r3) := spanDigits r2
       !d2.isEmpty && r3.isEmpty
     | _ => false)

/-- `^\d{1,2}(slash or hyphen)\d{1,2}(slash or hyphen)\d{2,4}$`. -/
def dateExactMatch (t : List Char) : Bool :=
  let (d1, r1) := spanDigits t
  (1 ≤ d1.length && d1.length ≤ 2) &&
    (match r1 with
     | s1 :: r2 =>
       (s1 = '/' || s1 = '-') &&
         (let (d2, r3) := spanDigits r2
          (1 ≤ d2.length && d2.length ≤ 2) &&
            (match r3 with
             | s2 :: r4 =>
               (s2 = '/' || s2 = '-') &&
                 (let (d3, r5) := spanDigits r4
                  (2 ≤ d3.length && d3.length ≤ 4) && r5.isEmpty)
             | [] => false))
     | [] => false)

/-- `\d+\.\d+(\.\d+)?$` — the body of the version token after the
optional `v`. -/
def dottedNumsMatch (t : List Char) : Bool :=
  let (d1, r1) := spanDigits t
  !d1.isEmpty &&
    (match r1 with
     | '.' :: r2 =>
       let (d2, r3) := spanDigits r2
       !d2.isEmpty &&
         (match r3 with
          | [] => true
          | '.' :: r4 =>
            let (d3, r5) := spanDigits r4
            !d3.isEmpty && r5.isEmpty
          | _ => false)
     | _ => false)

/-- `^v?\d+\.\d+(\.\d+)?$`. -/
def versionTokenMatch (t : List Char) : Bool :=
  match t with
  | 'v' :: rest => dottedNumsMatch rest
  | _ => dottedNumsMatch t

/-- `^<word>\s+\d+$` for `rev`/`revision`: the word, whitespace, digits. -/
def wordWSDigitsEnd (w : String) (t : List Char) : Bool :=
  w.data.isPrefixOf t &&
    (let r := t.drop w.data.length
     let (ws, r2) := spanWS r
     !ws.isEmpty &&
       (let (d, r3) := spanDigits r2
        !d.isEmpty && r3.isEmpty))

/-- `is_table_element`'s first test: any of the `table_indicators`
patterns matches the stripped lowercased text exactly
(`re.match`, all patterns anchored on both sides). -/
def tableIndicatorMatch (t : List Char) : Bool :=
  tableWordMatch t || numPairMatch t || dateExactMatch t ||
  versionTokenMatch t || wordWSDigitsEnd "rev" t ||
  wordWSDigitsEnd "revision" t

/-- `<word>\s+\d` at the current position: used for the unanchored
searches `page\s+\d+`, `chapter\s+\d+` (a single digit suffices since the
pattern is not end-anchored). -/
def wordWSDigitHere (w : String) (t : List Char) : Bool :=
  w.data.isPrefixOf t &&
    (let r := t.drop w.data.length
     let (ws, r2) := spanWS r
     !ws.isEmpty &&
       (match r2 with
        | c :: _ => isPyDigit c
        | [] => false))

/-- `<pat1>\s+<pat2>` at the current position (both literal words), used
for `document\s+id` and the pieces of `table\s+of\s+contents`.  Returns
the rest after the second word, for chaining. -/
def wordWSWordHere (w1 w2 : String) (t : List Char) : Bool :=
  w1.data.isPrefixOf t &&
    (let r := t.drop w1.data.length
     let (ws, r2) := spanWS r
     !ws.isEmpty && w2.data.isPrefixOf r2)

/-- `Â©\s*\d{4}` at the current position (the source literal is the
mojibake two-character sequence `U+00C2 U+00A9`).  `\d{4}` needs four
consecutive digits. -/
def copyrightHere (t : List Char) : Bool :=
  match t with
  | c1 :: c2 :: r =>
    c1.toNat = 0xC2 && c2.toNat = 0xA9 &&
      (let (_, r2) := spanWS r
       (r2.take 4).length = 4 && (r2.take 4).all isPyDigit)
  | _ => false

/-- `\d{1,2}(slash or hyphen)\d{1,2}(slash or hyphen)\d{2,4}\b` at the current position; the caller
checks the leading `\b`. -/
def dateTokenHere (t : List Char) : Bool :=
  let (d1, r1) := spanDigits t
  (1 ≤ d1.length && d1.length ≤ 2) &&
    (match r1 with
     | s1 :: r2 =>
       (s1 = '/' || s1 = '-') &&
         (let (d2, r3) := spanDigits r2
          (1 ≤ d2.length && d2.length ≤ 2) &&
            (match r3 with
             | s2 :: r4 =>
               (s2 = '/' || s2 = '-') &&
                 (let (d3, r5) := spanDigits r4
                  (2 ≤ d3.length && d3.length ≤ 4) &&
                    (match r5 with
                     | [] => true
                     | c :: _ => !isPyWord c))
             | [] => false))
     | [] => false)

/-- the `re.search` of the word-boundary date pattern: scan every
position carrying the previous character for the leading `\b` (the next
char of any match is a digit, so the boundary needs the previous char to
be absent or a non-word char). -/
def dateTokenSearchAux : Option Char → List Char → Bool
  | _, [] => false
  | prev, c :: rest =>
    ((match prev with
      | none => true
      | some p => !isPyWord p) && dateTokenHere (c :: rest)) ||
    dateTokenSearchAux (some c) rest

def dateTokenSearch (t : List Char) : Bool := dateTokenSearchAux none t

/-- `is_header_footer` (source lines 82–89): patterns searched in the
stripped lowercased text, plus the short digits/separators test. -/
def is_header_footer (e : Frag) : Bool :=
  let t := lowerChars (stripChars e.text.data)
  searchAux (wordWSDigitHere "page") t ||
  (!t.isEmpty && t.all isPyDigit) ||
  searchAux (wordWSDigitHere "chapter") t ||
  searchAux copyrightHere t ||
  containsSub "confidential" ⟨t⟩ ||
  searchAux (wordWSWordHere "document" "id") t ||
  dateTokenSearch t ||
  (t.length ≤ 10 && !t.isEmpty &&
    t.all (fun c => isPyDigit c || isPySpace c || c = '-' || c = '/' || c = '.'))

/-- `^v\d+\.\d+` as a prefix (`re.match`, not end-anchored). -/
def vNumHere (t : List Char) : Bool :=
  match t with
  | 'v' :: r =>
    let (d1, r1) := spanDigits r
    !d1.isEmpty &&
      (match r1 with
       | '.' :: c :: _ => isPyDigit c
       | _ => false)
  | _ => false

/-- `^\d+\.\d+\.\d+` as a prefix. -/
def tripleNumHere (t : List Char) : Bool :=
  let (d1, r1) := spanDigits t
  !d1.isEmpty &&
    (match r1 with
     | '.' :: r2 =>
       let (d2, r3) := spanDigits r2
       !d2.isEmpty &&
         (match r3 with
          | '.' :: c :: _ => isPyDigit c
          | _ => false)
     | _ => false)

/-- `is_version_or_date` (source lines 91–97): `re.match` of seven
prefix patterns on the stripped lowercased text. -/
def is_version_or_date (e : Frag) : Bool :=
  let t := lowerChars (stripChars e.text.data)
  vNumHere t ||
  wordWSDigitHere "version" t ||
  wordWSDigitHere "rev" t ||
  tripleNumHere t ||
  "date:".data.isPrefixOf t ||
  "created:".data.isPrefixOf t ||
  "updated:".data.isPrefixOf t

/-- `is_dots_or_dashes` (source lines 99–101): drop all whitespace from
the stripped text; the remainder must be ≥3 chars, all from `.-_=*~`. -/
def is_dots_or_dashes (e : Frag) : Bool :=
  let t := (stripChars e.text.data).filter (fun c => !isPySpace c)
  3 ≤ t.length &&
    t.all (fun c => c = '.' || c = '-' || c = '_' || c = '=' || c = '*' || c = '~')

/-- The §4.2 filter: a fragment matching any of the three predicates is
skipped by font profiling, title candidacy and the assembly pass. -/
def excl42 (e : Frag) : Bool :=
  is_header_footer e || is_version_or_date e || is_dots_or_dashes e

/-- `table\s+of\s+contents` at the current position. -/
def tableOfContentsHere (t : List Char) : Bool :=
  wordWSWordHere "table" "of" t &&
    (let r := t.drop "table".data.length
     let (_, r2) := spanWS r
     let r3 := r2.drop "of".data.length
     let (ws2, r4) := spanWS r3
     !ws2.isEmpty && "contents".data.isPrefixOf r4)

/-- `table\s+des\s+matiÃ¨res` at the current position (the source
literal is mojibake: `mati` then `U+00C3 U+00A8` then `res`). -/
def tableDesMatieresHere (t : List Char) : Bool :=
  wordWSWordHere "table" "des" t &&
    (let r := t.drop "table".data.length
     let (_, r2) := spanWS r
     let r3 := r2.drop "des".data.length
     let (ws2, r4) := spanWS r3
     !ws2.isEmpty &&
       ("mati".data ++ [Char.ofNat 0xC3, Char.ofNat 0xA8] ++ "res".data).isPrefixOf r4)

/-- `is_table_of_contents_header` (source lines 103–105): `re.search` of
the five `toc_patterns` in the stripped lowercased text. -/
def is_table_of_contents_header (e : Frag) : Bool :=
  let t := lowerChars (stripChars e.text.data)
  searchAux tableOfContentsHere t ||
  containsSub "contents" ⟨t⟩ ||
  containsSub "index" ⟨t⟩ ||
  searchAux tableDesMatieresHere t ||
  containsSub "sommaire" ⟨t⟩

/-- `\s+\d+$` at the current position: whitespace then digits to the end
(the tail of `^.+\s+\d+$`). -/
def wsThenDigitsEnd (t : List Char) : Bool :=
  let (ws, r) := spanWS t
  !ws.isEmpty &&
    (let (d, r2) := spanDigits r
     !d.isEmpty && r2.isEmpty)

/-- `^.+\s+\d+$`: a nonempty newline-free head, whitespace, trailing
digits.  Each step consumes one head character (which may not be `\n`,
since `.` does not match newlines) and tries to start the tail. -/
def tocRefLineAux : List Char → Bool
  | [] => false
  | c :: rest => if c = '\n' then false else wsThenDigitsEnd rest || tocRefLineAux rest

/-- `is_toc_content` (source lines 107–112), on the stripped (not
lowercased) text. -/
def is_toc_content (e : Frag) : Bool :=
  let t := stripChars e.text.data
  (let (d, r) := spanDigits t
   !d.isEmpty && (r.isEmpty || r = ['.'])) ||
  (let (d1, r1) := spanDigits t
   !d1.isEmpty &&
     (match r1 with
      | '.' :: c :: _ => isPyDigit c
      | _ => false)) ||
  containsSub "....." ⟨t⟩ ||
  tocRefLineAux t

/-! ## Table Region Detector (§4.1, source lines 29–80) -/

/-- `|i - j| ≤ k` on naturals (Python computes `abs(i - element_idx)`). -/
def natDist (i j : Nat) : Nat := max i j - min i j

/-- One window element check of `is_in_tabular_structure`: does the
stripped lowercased text contain one of `version`/`date`/`remarks`? -/
def hasTableHeaderWord (f : Frag) : Bool :=
  let t : String := ⟨lowerChars (stripChars f.text.data)⟩
  containsSub "version" t || containsSub "date" t || containsSub "remarks" t

/-- `is_in_tabular_structure` (source lines 54–70): in the ±10-index
window on the same page (the element itself included), at least 2
elements contain a table-header word and at least 3 have ≤3 words and
this element's font size. -/
def is_in_tabular_structure (elems : List Frag) (i : Nat) (e : Frag) : Bool :=
  let win := elems.enum.filter (fun p => p.2.page = e.page && natDist p.1 i ≤ 10)
  2 ≤ (win.filter (fun p => hasTableHeaderWord p.2)).length &&
  3 ≤ (win.filter (fun p =>
        (splitWS (lowerChars (stripChars p.2.text.data))).length ≤ 3 &&
        p.2.font_size = e.font_size)).length

/-- `has_tabular_neighbors` (source lines 72–80): some element within
±5 indices, distinct from `i`, on the same page, whose stripped
lowercased text is exactly one of five words. -/
def has_tabular_neighbors (elems : List Frag) (i : Nat) (e : Frag) : Bool :=
  elems.enum.any (fun p =>
    decide (p.1 ≠ i) && i ≤ p.1 + 5 && p.1 ≤ i + 5 && p.2.page = e.page &&
      (let t := lowerChars (stripChars p.2.text.data)
       t = "version".data || t = "date".data || t = "remarks".data ||
       t = "identifier".data || t = "reference".data))

/-- `is_table_element` (source lines 40–52). -/
def is_table_element (elems : List Frag) (i : Nat) (e : Frag) : Bool :=
  tableIndicatorMatch (lowerChars (stripChars e.text.data)) ||
  is_in_tabular_structure elems i e || has_tabular_neighbors elems i e

/-- `detect_table_elements` (source lines 29–38) marks exactly the
indices whose element passes `is_table_element` (the per-page grouping
does not change which indices are marked, only the iteration order, and
marking has no effect on the checks). -/
def table_elements (elems : List Frag) : List Nat :=
  (elems.enum.filter (fun p => is_table_element elems p.1 p.2)).map Prod.fst

/-- The fragment subsequence with the table-region-marked fragments
removed (used to state claim C1). -/
def removeTableMarked (elems : List Frag) : List Frag :=
  (elems.enum.filter (fun p => !is_table_element elems p.1 p.2)).map Prod.snd

/-! ## Font Profiler (§4.3, source lines 114–129) -/

/-- The fragments `analyze_font_characteristics` retains: those passing
all three §4.2 filters.  Table-region marks are NOT consulted here —
the source passes the full element list. -/
def retainedForFont (elems : List Frag) : List Frag :=
  elems.filter (fun e => !excl42 e)

/-- The distinct font sizes of the retained fragments (the keys of the
source's `font_data` dict; key order is irrelevant to the maximum). -/
def fontSizesOf (r : List Frag) : List Rat :=
  (r.map (fun e => e.font_size)).dedup

/-- `font_data[s]['total_chars']`: total stripped-text length over the
retained fragments of font size `s`. -/
def fontCharTotal (r : List Frag) (s : Rat) : Nat :=
  ((r.filter (fun e => e.font_size = s)).map (fun e => (stripChars e.text.data).length)).sum

/-- `len(font_data[s]['pages'])`: number of distinct pages on which font
size `s` occurs among the retained fragments. -/
def fontPageCount (r : List Frag) (s : Rat) : Nat :=
  ((r.filter (fun e => e.font_size = s)).map (fun e => e.page)).dedup.length

/-- The score `total_chars * len(pages)` of a font size. -/
def fontScore (r : List Frag) (s : Rat) : Nat :=
  fontCharTotal r s * fontPageCount r s

/-- Strict lexicographic order on `(score, font_size)` pairs, as used by
the descending sort of `candidates` in `analyze_font_characteristics`
(tuples of an int and a float are always comparable). -/
def pairLtP (a b : Nat × Rat) : Prop :=
  a.1 < b.1 ∨ (a.1 = b.1 ∧ a.2 < b.2)

instance (a b : Nat × Rat) : Decidable (pairLtP a b) := by
  unfold pairLtP; infer_instance

/-- Maximum of a list of `(score, font_size)` pairs under `pairLtP`
(`candidates.sort(reverse=True); candidates[0]`). -/
def maxPairFold (best : Nat × Rat) : List (Nat × Rat) → Nat × Rat
  | [] => best
  | c :: rest => maxPairFold (if pairLtP best c then c else best) rest

/-- The `(score, size)` candidate pairs of `analyze_font_characteristics`. -/
def fontPairs (r : List Frag) : List (Nat × Rat) :=
  (fontSizesOf r).map (fun s => (fontScore r s, s))

/-- `self.paragraph_font_size` after `analyze_font_characteristics`:
default 12 if no retained fragment, else the size of the maximal
`(score, size)` pair. -/
def bodyOfRetained (r : List Frag) : Rat :=
  match fontPairs r with
  | [] => 12
  | p :: rest => (maxPairFold p rest).2

def bodyFontSize (elems : List Frag) : Rat :=
  bodyOfRetained (retainedForFont elems)

/-! ## Paragraph test, title selection, header classification
(§4.4/§4.5, source lines 131–171) -/

/-- `is_paragraph_text` (source lines 131–140), given the computed
`paragraph_font_size`. -/
def is_paragraph_text (body : Rat) (e : Frag) : Bool :=
  let t := stripChars e.text.data
  (e.font_size = body && !e.bold) ||
  (e.font_size = body && e.bold && (t.contains '\n' || 15 < (splitWS t).length))

/-- The sort key of a title candidate: `(font_size, page, stripped
text)` — the first three components of the source's candidate tuple. -/
def titleKey (e : Frag) : Rat × Nat × String :=
  (e.font_size, e.page, ⟨stripChars e.text.data⟩)

/-- The candidate pool of `identify_title` (source lines 143–149). -/
def titleCandidates (body : Rat) (elems : List Frag) : List Frag :=
  elems.filter (fun e =>
    !excl42 e && !is_paragraph_text body e && 3 ≤ (stripChars e.text.data).length)

/-- Python string `<` : lexicographic on code points. -/
def charListLt : List Char → List Char → Bool
  | [], [] => false
  | [], _ :: _ => true
  | _ :: _, [] => false
  | a :: as, b :: bs => a.toNat < b.toNat || (a = b && charListLt as bs)

/-- Strict Python order on title keys (tuple comparison, component-wise). -/
def titleKeyLt (a b : Rat × Nat × String) : Bool :=
  decide (a.1 < b.1) ||
  (a.1 = b.1 &&
    (decide (a.2.1 < b.2.1) ||
      (a.2.1 = b.2.1 && charListLt a.2.2.data b.2.2.data)))

/-- `candidates.sort(reverse=True)` raises `TypeError` when the sort
compares two candidates whose first three tuple components are equal but
whose element dicts are not (`dict < dict` is unsupported; tuple
comparison first skips equal components via `==`).  With two such
candidates present the two-element comparison of the sort reaches the
dicts.  This predicate flags any such pair. -/
def titleSortCrash : List Frag → Bool
  | [] => false
  | c :: rest => rest.any (fun d => titleKey c = titleKey d && c ≠ d) || titleSortCrash rest

/-- Maximum candidate under the key order (ties keep the earlier one;
when no crash is flagged, tied candidates are equal as records). -/
def pickTitle (best : Frag) : List Frag → Frag
  | [] => best
  | c :: rest => pickTitle (if titleKeyLt (titleKey best) (titleKey c) then c else best) rest

/-- `identify_title` (source lines 142–153), given `paragraph_font_size`;
`none` when the pool is empty. -/
def identify_title (body : Rat) (elems : List Frag) : Option Frag :=
  match titleCandidates body elems with
  | [] => none
  | c :: rest => some (pickTitle c rest)

/-- `classify_header_level` (source lines 155–168), given
`paragraph_font_size` and the selected title. -/
def classify_header_level (body : Rat) (title : Option Frag) (e : Frag) : Option String :=
  if is_paragraph_text body e then none
  else
    let title_font_size := match title with | some t => t.font_size | none => 16
    if title_font_size ≤ e.font_size then none
    else if body < e.font_size then some "H1"
    else if e.font_size = body && e.bold &&
        (splitWS (stripChars e.text.data)).length ≤ 10 then some "H2"
    else none

/-- `extract_clean_title` (source lines 170–171). -/
def extract_clean_title : Option Frag → String
  | none => "Untitled Document"
  | some t => ⟨collapseWSAux false (stripChars t.text.data)⟩

/-! ## Dedup guard and the assembly pass (§4.6, source lines 173–224) -/

/-- The three generic labels of `should_include_header`. -/
def genericHeads : List String := ["overview", "introduction", "summary"]

/-- The dedup normalization: `re.sub(r'\s+', ' ', text.strip().lower())`. -/
def normalizeHeader (text : String) : String :=
  ⟨collapseWSAux false (lowerChars (stripChars text.data))⟩

/-- The dedup key `f"{normalized}_{page}"`. -/
def headerKey (text : String) (page : Nat) : String :=
  normalizeHeader text ++ "_" ++ toString page

/-- `should_include_header` (source lines 173–183): returns the decision
and the updated `seen_headers` set (modelled as a list of strings). -/
def should_include_header (seen : List String) (text : String) (page : Nat) :
    Bool × List String :=
  let normalized := normalizeHeader text
  if normalized ∈ genericHeads ∧ normalized ∈ seen then (false, seen)
  else
    let seen1 := if normalized ∈ genericHeads then normalized :: seen else seen
    let key := headerKey text page
    if key ∈ seen1 then (false, seen1) else (true, key :: seen1)

/-- An emitted outline entry `{"level", "text", "page"}`. -/
structure OutlineEntry where
  level : String
  text : String
  page : Nat
deriving DecidableEq, Repr

/-- A body-content record `{"text", "page", "type": "paragraph"}`. -/
structure ParaRec where
  text : String
  page : Nat
  ptype : String
deriving DecidableEq, Repr

/-- The mutable state of the single forward pass. -/
structure PassState where
  in_toc : Bool
  seen : List String
  outline : List OutlineEntry
  content : List ParaRec
deriving DecidableEq, Repr

def initPass : PassState := ⟨false, [], [], []⟩

/-- The context the pass reads but never writes. -/
structure PassCtx where
  elems : List Frag
  body : Rat
  title : Option Frag
  title_page : Option Nat
deriving Repr

/-- `if level and self.should_include_header(text, page): append`:
the guarded outline append (note the dedup set is updated even when the
entry is rejected, and also on some rejecting paths). -/
def appendEntry (lv : String) (text : String) (page : Nat) (s : PassState) : PassState :=
  let r := should_include_header s.seen text page
  if r.1 then
    { s with seen := r.2, outline := s.outline ++ [⟨lv, text, page⟩] }
  else
    { s with seen := r.2 }

/-- Does the current fragment's `(stripped text, page)` equal the
title's raw `(text, page)` (source line 199 compares the stripped loop
text against the raw stored title text)? -/
def titleMatches (title : Option Frag) (text : String) (page : Nat) : Bool :=
  match title with
  | none => false
  | some t => text = t.text && page = t.page

/-- One iteration of the assembly loop (source lines 192–219) on the
enumerated fragment `(i, e)`. -/
def stepFrag (ctx : PassCtx) (s : PassState) (p : Nat × Frag) : PassState :=
  let i := p.1
  let e := p.2
  let text := pyStrip e.text
  let page := e.page
  if text = "" then s
  else if is_table_element ctx.elems i e then s
  else if excl42 e then s
  else if titleMatches ctx.title text page then s
  else if is_table_of_contents_header e then
    let s1 := { s with in_toc := true }
    match classify_header_level ctx.body ctx.title e with
    | none => s1
    | some lv => appendEntry lv text page s1
  else if s.in_toc && is_toc_content e then s
  else if s.in_toc && (classify_header_level ctx.body ctx.title e).isNone then s
  else
    let s1 := { s with in_toc := false }
    let lv := if ctx.title_page = some page then none
              else classify_header_level ctx.body ctx.title e
    let s2 := match lv with
              | none => s1
              | some l => appendEntry l text page s1
    { s2 with content := s2.content ++ [⟨text, page, "paragraph"⟩] }

/-- The externally visible result `{"title", "outline"}`. -/
structure ParseResult where
  title : String
  outline : List OutlineEntry
deriving DecidableEq, Repr

instance {e a : Type} [DecidableEq e] [DecidableEq a] : DecidableEq (Except e a) := fun x y =>
  match x, y with
  | Except.error u, Except.error v =>
    if h : u = v then Decidable.isTrue (by rw [h])
    else Decidable.isFalse (fun hh => h (by injection hh))
  | Except.error _, Except.ok _ => Decidable.isFalse (fun hh => Except.noConfusion hh)
  | Except.ok _, Except.error _ => Decidable.isFalse (fun hh => Except.noConfusion hh)
  | Except.ok u, Except.ok v =>
    if h : u = v then Decidable.isTrue (by rw [h])
    else Decidable.isFalse (fun hh => h (by injection hh))

/-- The pure pipeline of `parse_pdf_data` (source lines 185–224) on one
fragment sequence.  `Except.error ()` models the `TypeError` raised by
the title sort (see `titleSortCrash`); everything else is total. -/
def parseDoc (elems : List Frag) : Except Unit ParseResult :=
  let body := bodyFontSize elems
  if titleSortCrash (titleCandidates body elems) then Except.error ()
  else
    let title := identify_title body elems
    let ctx : PassCtx := ⟨elems, body, title, title.map (fun t => t.page)⟩
    let fin := elems.enum.foldl (stepFrag ctx) initPass
    Except.ok ⟨extract_clean_title title, fin.outline⟩

/-- The selected title's page, `self.title_page` (source line 190). -/
def titlePageOf (elems : List Frag) : Option Nat :=
  (identify_title (bodyFontSize elems) elems).map (fun t => t.page)

/-- The outline produced on a successful run. -/
def parseOutline (elems : List Frag) : Option (List OutlineEntry) :=
  (parseDoc elems).toOption.map ParseResult.outline

/-! ## The engine instance (`PDFTitleHeaderParser`) as explicit state -/

/-- The fields of `PDFTitleHeaderParser.__init__` (source lines 11–27);
`toc_patterns` is constant data and omitted. -/
structure ParserState where
  title : Option Frag
  title_page : Option Nat
  outline : List OutlineEntry
  content : List ParaRec
  paragraph_font_size : Rat
  in_toc_section : Bool
  seen_headers : List String
  table_elems : List Nat
deriving Repr

/-- The freshly initialized state (`__init__`). -/
def initParser : ParserState :=
  ⟨none, none, [], [], 12, false, [], []⟩

/-- `parse_pdf_data` as a method: the first statement re-runs
`self.__init__()`, so the incoming state `st` is discarded and the
result is a function of `elems` alone. -/
def parse_pdf_data (_st : ParserState) (elems : List Frag) :
    ParserState × Except Unit ParseResult :=
  let s0 := initParser
  let tset := table_elements elems
  let body := bodyFontSize elems
  if titleSortCrash (titleCandidates body elems) then
    ({ s0 with table_elems := tset, paragraph_font_size := body }, Except.error ())
  else
    let title := identify_title body elems
    let ctx : PassCtx := ⟨elems, body, title, title.map (fun t => t.page)⟩
    let fin := elems.enum.foldl (stepFrag ctx) initPass
    ({ s0 with
        table_elems := tset
        paragraph_font_size := body
        title := title
        title_page := title.map (fun t => t.page)
        in_toc_section := fin.in_toc
        seen_headers := fin.seen
        outline := fin.outline
        content := fin.content },
     Except.ok ⟨extract_clean_title title, fin.outline⟩)

/-! ## Concrete inputs used by counterexamples and witnesses -/

/-- A single fragment whose text is the exact table-cell indicator word
`version`: marked by the Table Region Detector, but retained by all
three §4.2 filters. -/
def exC1 : List Frag := [⟨"version", 1, 20, false⟩]

/-- A title on page 1, a `Contents` heading on the same page 1, and body
text on page 2 establishing BodyFontSize 10. -/
def exC2 : List Frag :=
  [⟨"Alpha Title", 1, 20, true⟩, ⟨"Contents", 1, 14, true⟩,
   ⟨"blah blah body", 2, 10, false⟩]

/-- Two title candidates with equal `(font_size, page, stripped text)`
but different raw records (trailing space): the title sort compares the
raw dicts and raises. -/
def exC3 : List Frag := [⟨"Heading", 1, 14, true⟩, ⟨"Heading ", 1, 14, true⟩]

/-- The literal scenario input of claim C4. -/
def exC4 : List Frag :=
  [⟨"Table of Contents", 1, 14, true⟩, ⟨"1. Intro ..... 3", 1, 10, false⟩,
   ⟨"Introduction", 3, 18, true⟩]

/-- A single bold `version` fragment: table-region-marked, yet the only
title candidate. -/
def exC5 : List Frag := [⟨"version", 1, 20, true⟩]

/-- Same shape as `exC2`; dedicated input for claim C6's witness. -/
def exC6 : List Frag :=
  [⟨"Beta Title", 1, 20, true⟩, ⟨"Contents", 1, 14, true⟩,
   ⟨"some body prose", 2, 10, false⟩]

/-- Two fragments at distinct font sizes; dedicated input for C7's
witness. -/
def exC7 : List Frag :=
  [⟨"Large Words Here", 1, 16, true⟩, ⟨"small body text runs", 1, 10, false⟩]

/-! ## Claim theorems -/

/-- C1 (counterexample): the claim "table-region-marked fragments never
influence BodyFontSize" is false: on `exC1` the single fragment is
table-region-marked, yet BodyFontSize is 20 with it and 12 (the default)
with all table-region-marked fragments removed. -/
theorem C1_table_fonts_cex :
    bodyFontSize exC1 ≠ bodyFontSize (removeTableMarked exC1) ∧
    table_elements exC1 = [0] := by decide

/-- C1 (amended): the font-profiling scan excludes exactly the fragments
matched by the §4.2 filters — BodyFontSize is identical to the one
computed on the sequence with all 4.2-filtered fragments removed; the
table-region marks are not consulted by font profiling. -/
theorem C1_table_fonts_amended (elems : List Frag) :
    bodyFontSize (retainedForFont elems) = bodyFontSize elems := by
  unfold bodyFontSize retainedForFont
  rw [List.filter_filter]
  simp only [Bool.and_self]

/-- C2 (counterexample): the claim "no fragment on the title's page ever
yields an OutlineEntry" is false: on `exC2` the title `Alpha Title` is
on page 1 and the outline contains the entry `(H1, Contents, 1)` — a
fragment matching a TOC-heading pattern on the title's page is promoted
via the TOC-header branch, which does not perform the title-page check. -/
theorem C2_title_page_cex :
    parseOutline exC2 = some [⟨"H1", "Contents", 1⟩] ∧
    titlePageOf exC2 = some 1 := by decide

/-- C3 (code bug, evaluation): on `exC3` — two fragments whose
`(font_size, page, stripped text)` coincide but whose records differ —
`identify_title`'s `candidates.sort(reverse=True)` compares the two raw
element dicts and raises `TypeError`; processing fails instead of
returning a result record. -/
theorem C3_no_error_crash_eval : parseDoc exC3 = Except.error () := by decide

/-- C4 (counterexample): on the literal scenario input the engine's
outline is `[(H2, "Table of Contents", 1)]`, not the claimed
`[(H1, "Introduction", 3)]` (BodyFontSize computes to 14, not the
stipulated 10, so the TOC heading itself classifies as H2, and
`Introduction` is the selected title and is skipped). -/
theorem C4_scenario_cex :
    parseOutline exC4 = some [⟨"H2", "Table of Contents", 1⟩] ∧
    ([⟨"H2", "Table of Contents", 1⟩] : List OutlineEntry) ≠
      [⟨"H1", "Introduction", 3⟩] := by decide

/-- C4 (amended): for the scenario input, BodyFontSize computes to 14,
the selected title is `Introduction` (so the fragment is skipped as the
title), the dotted line is skipped as TOC content, and the output
outline equals exactly `[(H2, "Table of Contents", 1)]`. -/
theorem C4_scenario_amended :
    bodyFontSize exC4 = 14 ∧
    parseDoc exC4 =
      Except.ok ⟨"Introduction", [⟨"H2", "Table of Contents", 1⟩]⟩ := by decide

/-- C5 (counterexample): the claim "the title-selection candidate pool
contains no table-region-marked fragment" is false: on `exC5` the
candidate pool is exactly the table-region-marked `version` fragment,
and it is chosen as the title. -/
theorem C5_title_pool_cex :
    titleCandidates (bodyFontSize exC5) exC5 = [⟨"version", 1, 20, true⟩] ∧
    is_table_element exC5 0 ⟨"version", 1, 20, true⟩ = true ∧
    identify_title (bodyFontSize exC5) exC5 = some ⟨"version", 1, 20, true⟩ := by decide

/-- C9: two runs of the engine on the same fragment sequence — on two
instances in arbitrary states, or on one instance used twice in
succession — produce identical output records: `parse_pdf_data` begins
by re-running `__init__`, so its result ignores the incoming state. -/
theorem C9_determinism (s1 s2 : ParserState) (elems : List Frag) :
    (parse_pdf_data s1 elems).2 = (parse_pdf_data s2 elems).2 ∧
    (parse_pdf_data (parse_pdf_data s1 elems).1 elems).2 =
      (parse_pdf_data s1 elems).2 := ⟨rfl, rfl⟩

/-! ## Order and fold lemmas for the two descending sorts -/

lemma pairLt_trans {a b c : Nat × Rat} (h1 : pairLtP a b) (h2 : pairLtP b c) :
    pairLtP a c := by
  rcases h1 with h1 | ⟨h1e, h1r⟩ <;> rcases h2 with h2 | ⟨h2e, h2r⟩
  · exact Or.inl (lt_trans h1 h2)
  · exact Or.inl (h2e ▸ h1)
  · exact Or.inl (h1e ▸ h2)
  · exact Or.inr ⟨h1e.trans h2e, lt_trans h1r h2r⟩

lemma pairLt_lt_of_nlt {a b c : Nat × Rat} (h1 : pairLtP a b) (h2 : ¬ pairLtP c b) :
    pairLtP a c := by
  unfold pairLtP at *
  push_neg at h2
  rcases h1 with h1 | ⟨h1e, h1r⟩
  · rcases lt_or_eq_of_le h2.1 with h | h
    · exact Or.inl (lt_trans h1 h)
    · exact Or.inl (h ▸ h1)
  · rcases lt_or_eq_of_le h2.1 with h | h
    · exact Or.inl (h1e ▸ h)
    · exact Or.inr ⟨h1e.trans h, lt_of_lt_of_le h1r (h2.2 h.symm)⟩

lemma maxPairFold_mem (l : List (Nat × Rat)) :
    ∀ best, maxPairFold best l = best ∨ maxPairFold best l ∈ l := by
  induction l with
  | nil => intro best; exact Or.inl rfl
  | cons c rest ih =>
    intro best
    rw [maxPairFold]
    rcases ih (if pairLtP best c then c else best) with h | h
    · rw [h]
      split_ifs with hlt
      · exact Or.inr (List.mem_cons_self c rest)
      · exact Or.inl rfl
    · exact Or.inr (List.mem_cons_of_mem c h)

lemma maxPairFold_max (l : List (Nat × Rat)) :
    ∀ best q, (q = best ∨ q ∈ l) → ¬ pairLtP (maxPairFold best l) q := by
  induction l with
  | nil =>
    rintro best q (rfl | h)
    · rw [maxPairFold]
      rintro (h | ⟨_, h⟩) <;> exact lt_irrefl _ h
    · cases h
  | cons c rest ih =>
    intro best q hq
    rw [maxPairFold]
    by_cases hlt : pairLtP best c
    · rw [if_pos hlt]
      have hb' := ih c _ (Or.inl rfl)
      rcases hq with rfl | hq
      · exact fun hcon => hb' (pairLt_trans hcon hlt)
      · rcases List.mem_cons.mp hq with rfl | hq
        · exact hb'
        · exact ih c q (Or.inr hq)
    · rw [if_neg hlt]
      have hb' := ih best _ (Or.inl rfl)
      rcases hq with rfl | hq
      · exact hb'
      · rcases List.mem_cons.mp hq with rfl | hq
        · exact fun hcon => hb' (pairLt_lt_of_nlt hcon hlt)
        · exact ih best q (Or.inr hq)

lemma bodyOfRetained_mem_and_max (r : List Frag) (hr : r ≠ []) :
    bodyOfRetained r ∈ fontSizesOf r ∧
    ∀ s ∈ fontSizesOf r,
      fontScore r s < fontScore r (bodyOfRetained r) ∨
        (fontScore r s = fontScore r (bodyOfRetained r) ∧ s ≤ bodyOfRetained r) := by
  have hs : fontSizesOf r ≠ [] := by
    unfold fontSizesOf
    simp only [ne_eq, List.dedup_eq_nil, List.map_eq_nil_iff]
    exact hr
  have hfp : fontPairs r ≠ [] := by
    unfold fontPairs
    simp only [ne_eq, List.map_eq_nil_iff]
    exact hs
  rcases hcons : fontPairs r with _ | ⟨p, rest⟩
  · exact absurd hcons hfp
  · have hbody : bodyOfRetained r = (maxPairFold p rest).2 := by
      unfold bodyOfRetained
      rw [hcons]
    have hmem : maxPairFold p rest ∈ fontPairs r := by
      rw [hcons]
      rcases maxPairFold_mem rest p with h | h
      · rw [h]; exact List.mem_cons_self p rest
      · exact List.mem_cons_of_mem p h
    rcases List.mem_map.mp (by rw [fontPairs] at hmem; exact hmem) with ⟨s0, hs0, hs0eq⟩
    have hsnd : (maxPairFold p rest).2 = s0 := by rw [← hs0eq]
    have hfst : (maxPairFold p rest).1 = fontScore r (bodyOfRetained r) := by
      rw [hbody, hsnd, ← hs0eq]
    constructor
    · rw [hbody, hsnd]; exact hs0
    · intro s hsmem
      have hin : (fontScore r s, s) ∈ fontPairs r := by
        rw [fontPairs]
        exact List.mem_map.mpr ⟨s, hsmem, rfl⟩
      rw [hcons] at hin
      have hnlt := maxPairFold_max rest p (fontScore r s, s)
        (by rcases List.mem_cons.mp hin with h | h; exact Or.inl h; exact Or.inr h)
      unfold pairLtP at hnlt
      push_neg at hnlt
      dsimp only at hnlt
      rcases lt_or_eq_of_le hnlt.1 with h | h
      · exact Or.inl (lt_of_lt_of_eq h hfst)
      · refine Or.inr ⟨h.trans hfst, ?_⟩
        have h2 := hnlt.2 h.symm
        rw [hbody, hsnd]
        rw [hsnd] at h2
        exact h2

/-- C7: BodyFontSize equals the font size maximizing
`char_total × distinct_page_count` over the fragments retained by the
§4.2 filters, ties broken toward the numerically larger size; if no
fragment survives filtering it equals the default 12. -/
theorem C7_bodyfont (elems : List Frag) :
    (retainedForFont elems = [] → bodyFontSize elems = 12) ∧
    (retainedForFont elems ≠ [] →
      bodyFontSize elems ∈ fontSizesOf (retainedForFont elems) ∧
      ∀ s ∈ fontSizesOf (retainedForFont elems),
        fontScore (retainedForFont elems) s <
            fontScore (retainedForFont elems) (bodyFontSize elems) ∨
          (fontScore (retainedForFont elems) s =
              fontScore (retainedForFont elems) (bodyFontSize elems) ∧
            s ≤ bodyFontSize elems)) := by
  constructor
  · intro h
    unfold bodyFontSize
    rw [h]
    decide
  · intro h
    exact bodyOfRetained_mem_and_max (retainedForFont elems) h

/-- C7 witness: on `exC7` the retained fragments are nonempty and the
computed BodyFontSize (10) is the maximal-score size. -/
theorem C7_bodyfont_witness :
    bodyFontSize exC7 ∈ fontSizesOf (retainedForFont exC7) ∧
    ∀ s ∈ fontSizesOf (retainedForFont exC7),
      fontScore (retainedForFont exC7) s <
          fontScore (retainedForFont exC7) (bodyFontSize exC7) ∨
        (fontScore (retainedForFont exC7) s =
            fontScore (retainedForFont exC7) (bodyFontSize exC7) ∧
          s ≤ bodyFontSize exC7) :=
  (C7_bodyfont exC7).2 (by decide)

lemma pickTitle_mem (l : List Frag) :
    ∀ best, pickTitle best l = best ∨ pickTitle best l ∈ l := by
  induction l with
  | nil => intro best; exact Or.inl rfl
  | cons c rest ih =>
    intro best
    rw [pickTitle]
    rcases ih (if titleKeyLt (titleKey best) (titleKey c) then c else best) with h | h
    · rw [h]
      split_ifs with hlt
      · exact Or.inr (List.mem_cons_self c rest)
      · exact Or.inl rfl
    · exact Or.inr (List.mem_cons_of_mem c h)

/-- C5 (amended): the title candidate pool excludes exactly the
4.2-filtered fragments, paragraph text and trimmed texts shorter than 3
— it does not consult the Table Region Detector — and a selected title
always comes from that pool. -/
theorem C5_title_pool_amended (body : Rat) (elems : List Frag) (t : Frag)
    (h : identify_title body elems = some t) :
    t ∈ titleCandidates body elems ∧ excl42 t = false ∧
    is_paragraph_text body t = false ∧ 3 ≤ (stripChars t.text.data).length := by
  have hmem : t ∈ titleCandidates body elems := by
    unfold identify_title at h
    rcases hcand : titleCandidates body elems with _ | ⟨c, rest⟩
    · rw [hcand] at h; cases h
    · rw [hcand] at h
      have ht := Option.some.inj h
      rw [← ht]
      rcases pickTitle_mem rest c with h2 | h2
      · rw [h2]; exact List.mem_cons_self c rest
      · exact List.mem_cons_of_mem c h2
  refine ⟨hmem, ?_⟩
  have := List.mem_filter.mp (by rw [titleCandidates] at hmem; exact hmem)
  have hconds := this.2
  simp only [Bool.and_eq_true, Bool.not_eq_true', decide_eq_true_eq] at hconds
  exact ⟨hconds.1.1, hconds.1.2, hconds.2⟩

/-- C5 amended witness: at `exC5` the selected title satisfies the pool
conditions. -/
theorem C5_title_pool_amended_witness :
    (⟨"version", 1, 20, true⟩ : Frag) ∈ titleCandidates (bodyFontSize exC5) exC5 ∧
    excl42 ⟨"version", 1, 20, true⟩ = false ∧
    is_paragraph_text (bodyFontSize exC5) ⟨"version", 1, 20, true⟩ = false ∧
    3 ≤ (stripChars (Frag.text ⟨"version", 1, 20, true⟩).data).length :=
  C5_title_pool_amended (bodyFontSize exC5) exC5 ⟨"version", 1, 20, true⟩ (by decide)

/-- C8: the output title is never absent — with no title candidate the
fixed default string is produced, and the empty fragment sequence yields
the default title and an empty outline. -/
theorem C8_default_title :
    (∀ elems r, parseDoc elems = Except.ok r →
      identify_title (bodyFontSize elems) elems = none →
      r.title = "Untitled Document") ∧
    parseDoc [] = Except.ok ⟨"Untitled Document", []⟩ := by
  constructor
  · intro elems r h hnone
    simp only [parseDoc] at h
    split at h
    · cases h
    · have := Except.ok.inj h
      rw [← this, hnone]
      rfl
  · decide

/-- C8 witness: the theorem applied at the empty sequence. -/
theorem C8_default_title_witness :
    (⟨"Untitled Document", []⟩ : ParseResult).title = "Untitled Document" :=
  C8_default_title.1 [] ⟨"Untitled Document", []⟩ (by decide) (by decide)

lemma appendEntry_in_toc (lv text : String) (page : Nat) (s : PassState) :
    (appendEntry lv text page s).in_toc = s.in_toc := by
  simp only [appendEntry]
  split <;> rfl

lemma appendEntry_content (lv text : String) (page : Nat) (s : PassState) :
    (appendEntry lv text page s).content = s.content := by
  simp only [appendEntry]
  split <;> rfl

lemma appendEntry_seen (lv text : String) (page : Nat) (s : PassState) :
    (appendEntry lv text page s).seen = (should_include_header s.seen text page).2 := by
  simp only [appendEntry]
  split <;> rfl

/-- C10: TOC-heading detection is substring-based: any fragment that
reaches the assembly pass's TOC check (nonempty trimmed text, not
table-region-marked, not 4.2-filtered, not the title) and whose
lowercased trimmed text merely CONTAINS `contents` or `index` anywhere
switches the state machine to IN_TOC and is excluded from body content. -/
theorem C10_toc_substring (ctx : PassCtx) (s : PassState) (i : Nat) (e : Frag)
    (h1 : pyStrip e.text ≠ "")
    (h2 : is_table_element ctx.elems i e = false)
    (h3 : excl42 e = false)
    (h4 : titleMatches ctx.title (pyStrip e.text) e.page = false)
    (h5 : containsSub "contents" (pyLower (pyStrip e.text)) = true ∨
          containsSub "index" (pyLower (pyStrip e.text)) = true) :
    (stepFrag ctx s (i, e)).in_toc = true ∧
    (stepFrag ctx s (i, e)).content = s.content := by
  have hdr : is_table_of_contents_header e = true := by
    unfold is_table_of_contents_header
    have hlow : pyLower (pyStrip e.text) = ⟨lowerChars (stripChars e.text.data)⟩ := rfl
    rw [hlow] at h5
    rcases h5 with h5 | h5 <;> simp [h5]
  unfold stepFrag
  simp only [h2, h3, h4, hdr, if_neg h1, Bool.false_eq_true, if_false, if_true]
  rcases hcl : classify_header_level ctx.body ctx.title e with _ | lv
  · exact ⟨rfl, rfl⟩
  · exact ⟨by rw [appendEntry_in_toc], by rw [appendEntry_content]⟩

/-- C10 witness: a fragment `Subject Index` (TOC pattern `index` as a
substring only) flips the state machine to IN_TOC and adds no content. -/
theorem C10_toc_substring_witness :
    (stepFrag ⟨[], 10, none, none⟩ initPass (0, ⟨"Subject Index", 2, 14, true⟩)).in_toc = true ∧
    (stepFrag ⟨[], 10, none, none⟩ initPass (0, ⟨"Subject Index", 2, 14, true⟩)).content =
      initPass.content :=
  C10_toc_substring ⟨[], 10, none, none⟩ initPass 0 ⟨"Subject Index", 2, 14, true⟩
    (by decide) (by decide) (by decide) (by decide) (Or.inr (by decide))

lemma foldl_inv {α β : Type} (f : β → α → β) (P : β → Prop) :
    ∀ (l : List α) (s : β), P s → (∀ s' a, a ∈ l → P s' → P (f s' a)) →
      P (l.foldl f s) := by
  intro l
  induction l with
  | nil => intro s hs _; exact hs
  | cons a rest ih =>
    intro s hs hstep
    exact ih (f s a) (hstep s a (List.mem_cons_self a rest) hs)
      (fun s' b hb => hstep s' b (List.mem_cons_of_mem a hb))

lemma mem_enumFrom_snd {α : Type} :
    ∀ (l : List α) (n : Nat) (p : Nat × α), p ∈ List.enumFrom n l → p.2 ∈ l := by
  intro l
  induction l with
  | nil => intro n p h; cases h
  | cons a rest ih =>
    intro n p h
    rcases List.mem_cons.mp h with rfl | h
    · exact List.mem_cons_self a rest
    · exact List.mem_cons_of_mem a (ih (n + 1) p h)

lemma mem_enum_snd {α : Type} (l : List α) (p : Nat × α) (h : p ∈ l.enum) : p.2 ∈ l :=
  mem_enumFrom_snd l 0 p h

lemma appendEntry_outline_cases (lv text : String) (page : Nat) (s : PassState) :
    (appendEntry lv text page s).outline = s.outline ∨
    (appendEntry lv text page s).outline = s.outline ++ [⟨lv, text, page⟩] := by
  simp only [appendEntry]
  split
  · exact Or.inr rfl
  · exact Or.inl rfl

/-- Every step of the assembly pass either leaves the outline unchanged
or appends exactly one entry carrying the fragment's stripped text and
page, and such an entry comes either from the TOC-header branch or from
the normal branch (where the fragment's page differs from the title's). -/
lemma stepFrag_outline_cases (ctx : PassCtx) (s : PassState) (p : Nat × Frag) :
    (stepFrag ctx s p).outline = s.outline ∨
    ∃ lv, (stepFrag ctx s p).outline = s.outline ++ [⟨lv, pyStrip p.2.text, p.2.page⟩] ∧
      (is_table_of_contents_header p.2 = true ∨ ctx.title_page ≠ some p.2.page) := by
  rcases p with ⟨i, e⟩
  unfold stepFrag
  dsimp only
  by_cases h1 : pyStrip e.text = ""
  · rw [if_pos h1]; exact Or.inl rfl
  rw [if_neg h1]
  by_cases h2 : is_table_element ctx.elems i e
  · rw [if_pos h2]; exact Or.inl rfl
  rw [if_neg h2]
  by_cases h3 : excl42 e
  · rw [if_pos h3]; exact Or.inl rfl
  rw [if_neg h3]
  by_cases h4 : titleMatches ctx.title (pyStrip e.text) e.page
  · rw [if_pos h4]; exact Or.inl rfl
  rw [if_neg h4]
  by_cases h5 : is_table_of_contents_header e
  · rw [if_pos h5]
    rcases hcl : classify_header_level ctx.body ctx.title e with _ | lv
    · exact Or.inl rfl
    · rcases appendEntry_outline_cases lv (pyStrip e.text) e.page { s with in_toc := true }
        with h | h
      · exact Or.inl h
      · exact Or.inr ⟨lv, h, Or.inl (by simp [h5])⟩
  rw [if_neg h5]
  by_cases h6 : (s.in_toc && is_toc_content e) = true
  · rw [if_pos h6]; exact Or.inl rfl
  rw [if_neg h6]
  by_cases h7 : (s.in_toc && (classify_header_level ctx.body ctx.title e).isNone) = true
  · rw [if_pos h7]; exact Or.inl rfl
  rw [if_neg h7]
  by_cases h8 : ctx.title_page = some e.page
  · rw [if_pos h8]
    exact Or.inl rfl
  · rw [if_neg h8]
    rcases hcl : classify_header_level ctx.body ctx.title e with _ | lv
    · exact Or.inl rfl
    · rcases appendEntry_outline_cases lv (pyStrip e.text) e.page { s with in_toc := false }
        with h | h
      · exact Or.inl h
      · exact Or.inr ⟨lv, h, Or.inr h8⟩

/-- C2 (amended): whenever a title is selected, any outline entry on the
title's page can only originate from a fragment matching a TOC-heading
pattern (the TOC-header branch bypasses the title-page check); all
other fragments on the title's page are never promoted to headings. -/
theorem C2_title_page_amended (elems : List Frag) (t : Frag) (r : ParseResult)
    (hok : parseDoc elems = Except.ok r)
    (ht : identify_title (bodyFontSize elems) elems = some t) :
    ∀ en ∈ r.outline, en.page = t.page →
      ∃ e, e ∈ elems ∧ is_table_of_contents_header e = true ∧
        pyStrip e.text = en.text ∧ e.page = en.page := by
  simp only [parseDoc] at hok
  split at hok
  · cases hok
  · have hr := Except.ok.inj hok
    rw [← hr]
    dsimp only
    rw [ht]
    simp only [Option.map_some']
    exact foldl_inv (stepFrag ⟨elems, bodyFontSize elems, some t, some t.page⟩)
      (fun st => ∀ en ∈ st.outline, en.page = t.page →
        ∃ e, e ∈ elems ∧ is_table_of_contents_header e = true ∧
          pyStrip e.text = en.text ∧ e.page = en.page)
      elems.enum initPass
      (by intro en hen _; cases hen)
      (by
        intro st p hp hP en hen hpage
        rcases stepFrag_outline_cases ⟨elems, bodyFontSize elems, some t, some t.page⟩ st p
          with hcase | ⟨lv, heq, hdisj⟩
        · rw [hcase] at hen
          exact hP en hen hpage
        · rw [heq] at hen
          rcases List.mem_append.mp hen with hen | hen
          · exact hP en hen hpage
          · have hent := List.mem_singleton.mp hen
            subst hent
            dsimp only at hpage
            rcases hdisj with htoc | hne
            · exact ⟨p.2, mem_enum_snd elems p hp, htoc, rfl, rfl⟩
            · exact absurd (congrArg some hpage.symm) hne)

/-- C2 amended witness: on `exC2` the page-1 outline entry `Contents`
originates from a TOC-heading fragment. -/
theorem C2_title_page_amended_witness :
    ∃ e, e ∈ exC2 ∧ is_table_of_contents_header e = true ∧
      pyStrip e.text = (⟨"H1", "Contents", 1⟩ : OutlineEntry).text ∧
      e.page = (⟨"H1", "Contents", 1⟩ : OutlineEntry).page :=
  C2_title_page_amended exC2 ⟨"Alpha Title", 1, 20, true⟩
    ⟨"Alpha Title", [⟨"H1", "Contents", 1⟩]⟩ (by decide) (by decide)
    ⟨"H1", "Contents", 1⟩ (List.mem_singleton.mpr rfl) (by decide)

lemma should_include_spec (seen : List String) (text : String) (page : Nat) :
    (∀ x ∈ seen, x ∈ (should_include_header seen text page).2) ∧
    ((should_include_header seen text page).1 = true →
      headerKey text page ∈ (should_include_header seen text page).2 ∧
      headerKey text page ∉ seen ∧
      (normalizeHeader text ∈ genericHeads →
        normalizeHeader text ∈ (should_include_header seen text page).2 ∧
        normalizeHeader text ∉ seen)) := by
  simp only [should_include_header]
  by_cases h1 : normalizeHeader text ∈ genericHeads ∧ normalizeHeader text ∈ seen
  · rw [if_pos h1]
    exact ⟨fun x hx => hx, by intro h; cases h⟩
  · rw [if_neg h1]
    by_cases hg : normalizeHeader text ∈ genericHeads
    · rw [if_pos hg]
      by_cases hk : headerKey text page ∈ normalizeHeader text :: seen
      · rw [if_pos hk]
        exact ⟨fun x hx => List.mem_cons_of_mem _ hx, by intro h; cases h⟩
      · rw [if_neg hk]
        refine ⟨fun x hx => List.mem_cons_of_mem _ (List.mem_cons_of_mem _ hx), ?_⟩
        intro _
        refine ⟨List.mem_cons_self _ _, ?_, ?_⟩
        · exact fun hmem => hk (List.mem_cons_of_mem _ hmem)
        · intro _
          exact ⟨List.mem_cons_of_mem _ (List.mem_cons_self _ _),
            fun hm => h1 ⟨hg, hm⟩⟩
    · rw [if_neg hg]
      by_cases hk : headerKey text page ∈ seen
      · rw [if_pos hk]
        exact ⟨fun x hx => hx, by intro h; cases h⟩
      · rw [if_neg hk]
        refine ⟨fun x hx => List.mem_cons_of_mem _ hx, ?_⟩
        intro _
        exact ⟨List.mem_cons_self _ _, hk, fun hgen => absurd hgen hg⟩

/-- The dedup invariant over an outline: no two entries share normalized
text and page, and no two entries share a generic normalized text. -/
def dedupOk (outline : List OutlineEntry) : Prop :=
  List.Pairwise (fun a b =>
    ¬(normalizeHeader a.text = normalizeHeader b.text ∧ a.page = b.page) ∧
    ¬(normalizeHeader a.text = normalizeHeader b.text ∧
        normalizeHeader a.text ∈ genericHeads)) outline

/-- The pass invariant: the seen set covers the emitted entries' keys
(and generic labels), and the outline satisfies the dedup invariant. -/
def goodPass (s : PassState) : Prop :=
  (∀ en ∈ s.outline, headerKey en.text en.page ∈ s.seen) ∧
  (∀ en ∈ s.outline, normalizeHeader en.text ∈ genericHeads →
      normalizeHeader en.text ∈ s.seen) ∧
  dedupOk s.outline

lemma headerKey_congr {t1 t2 : String} {p1 p2 : Nat}
    (h1 : normalizeHeader t1 = normalizeHeader t2) (h2 : p1 = p2) :
    headerKey t1 p1 = headerKey t2 p2 := by
  unfold headerKey
  rw [h1, h2]

lemma appendEntry_good (lv text : String) (page : Nat) (s : PassState)
    (h : goodPass s) : goodPass (appendEntry lv text page s) := by
  have hspec := should_include_spec s.seen text page
  simp only [appendEntry]
  split_ifs with hok
  · have hx := hspec.2 hok
    refine ⟨?_, ?_, ?_⟩
    · intro en hen
      rcases List.mem_append.mp hen with hen | hen
      · exact hspec.1 _ (h.1 en hen)
      · have he := List.mem_singleton.mp hen
        subst he
        exact hx.1
    · intro en hen hgen
      rcases List.mem_append.mp hen with hen | hen
      · exact hspec.1 _ (h.2.1 en hen hgen)
      · have he := List.mem_singleton.mp hen
        subst he
        exact (hx.2.2 hgen).1
    · unfold dedupOk
      rw [List.pairwise_append]
      refine ⟨h.2.2, List.pairwise_singleton _ _, ?_⟩
      intro a ha b hb
      have hb' := List.mem_singleton.mp hb
      subst hb'
      constructor
      · rintro ⟨hnorm, hpage⟩
        exact hx.2.1 (by rw [← headerKey_congr hnorm hpage]; exact h.1 a ha)
      · rintro ⟨hnorm, hgen⟩
        have hseen := h.2.1 a ha hgen
        rw [hnorm] at hseen hgen
        exact (hx.2.2 hgen).2 hseen
  · refine ⟨?_, ?_, h.2.2⟩
    · intro en hen
      exact hspec.1 _ (h.1 en hen)
    · intro en hen hgen
      exact hspec.1 _ (h.2.1 en hen hgen)

lemma stepFrag_good (ctx : PassCtx) (s : PassState) (p : Nat × Frag)
    (h : goodPass s) : goodPass (stepFrag ctx s p) := by
  rcases p with ⟨i, e⟩
  unfold stepFrag
  dsimp only
  by_cases h1 : pyStrip e.text = ""
  · rw [if_pos h1]; exact h
  rw [if_neg h1]
  by_cases h2 : is_table_element ctx.elems i e
  · rw [if_pos h2]; exact h
  rw [if_neg h2]
  by_cases h3 : excl42 e
  · rw [if_pos h3]; exact h
  rw [if_neg h3]
  by_cases h4 : titleMatches ctx.title (pyStrip e.text) e.page
  · rw [if_pos h4]; exact h
  rw [if_neg h4]
  by_cases h5 : is_table_of_contents_header e
  · rw [if_pos h5]
    rcases hcl : classify_header_level ctx.body ctx.title e with _ | lv
    · exact h
    · exact appendEntry_good lv (pyStrip e.text) e.page _ h
  rw [if_neg h5]
  by_cases h6 : (s.in_toc && is_toc_content e) = true
  · rw [if_pos h6]; exact h
  rw [if_neg h6]
  by_cases h7 : (s.in_toc && (classify_header_level ctx.body ctx.title e).isNone) = true
  · rw [if_pos h7]; exact h
  rw [if_neg h7]
  rcases hlv : (if ctx.title_page = some e.page then none
      else classify_header_level ctx.body ctx.title e) with _ | l
  · exact h
  · exact appendEntry_good l (pyStrip e.text) e.page _ h

lemma pass_good (ctx : PassCtx) (l : List (Nat × Frag)) :
    goodPass (l.foldl (stepFrag ctx) initPass) :=
  foldl_inv _ goodPass l initPass
    ⟨(by intro en hen; cases hen), (by intro en hen; cases hen), List.Pairwise.nil⟩
    (fun s' a _ hs => stepFrag_good ctx s' a hs)

lemma pairwise_filter_len_le_one {α : Type} (q : α → Bool) {R : α → α → Prop}
    {l : List α} (h : l.Pairwise R)
    (hR : ∀ a b, q a = true → q b = true → R a b → False) :
    (l.filter q).length ≤ 1 := by
  induction h with
  | nil => simp
  | @cons a l2 hhead htail ih =>
    by_cases hq : q a = true
    · have hnil : l2.filter q = [] := by
        rw [List.filter_eq_nil_iff]
        intro b hb hqb
        exact hR a b hq hqb (hhead b hb)
      rw [List.filter_cons_of_pos hq, hnil]
      simp
    · rw [List.filter_cons_of_neg (by simpa using hq)]
      exact ih

/-- C6: the produced outline never contains two entries with the same
normalized text and page, and each of the three generic labels occurs at
most once in the whole outline. -/
theorem C6_dedup (elems : List Frag) (r : ParseResult)
    (hok : parseDoc elems = Except.ok r) :
    List.Pairwise (fun a b =>
      ¬(normalizeHeader a.text = normalizeHeader b.text ∧ a.page = b.page)) r.outline ∧
    ∀ g ∈ genericHeads,
      (r.outline.filter (fun en => normalizeHeader en.text == g)).length ≤ 1 := by
  simp only [parseDoc] at hok
  split at hok
  · cases hok
  · have hr := Except.ok.inj hok
    rw [← hr]
    dsimp only
    have hg := pass_good ⟨elems, bodyFontSize elems,
      identify_title (bodyFontSize elems) elems,
      Option.map (fun t => t.page) (identify_title (bodyFontSize elems) elems)⟩ elems.enum
    constructor
    · exact hg.2.2.imp (fun hab => hab.1)
    · intro g hgen
      refine pairwise_filter_len_le_one _ hg.2.2 ?_
      intro a b hqa hqb hab
      have ha' : normalizeHeader a.text = g := by simpa using hqa
      have hb' : normalizeHeader b.text = g := by simpa using hqb
      exact hab.2 ⟨ha'.trans hb'.symm, by rw [ha']; exact hgen⟩

/-- C6 witness: the theorem applied at `exC6`. -/
theorem C6_dedup_witness :
    List.Pairwise (fun a b =>
      ¬(normalizeHeader a.text = normalizeHeader b.text ∧ a.page = b.page))
      [(⟨"H1", "Contents", 1⟩ : OutlineEntry)] ∧
    ∀ g ∈ genericHeads,
      (([(⟨"H1", "Contents", 1⟩ : OutlineEntry)]).filter
        (fun en => normalizeHeader en.text == g)).length ≤ 1 :=
  C6_dedup exC6 ⟨"Beta Title", [⟨"H1", "Contents", 1⟩]⟩ (by decide)
